import Mathlib

/-!
Verification development for the RFID attendance manager.

The Python sources are shallowly embedded: strings are Lean `String`s
(manipulated through their underlying `List Char`), pandas data frames
become `Table` (a list of column names plus rows as total functions from
column name to cell string), the treeview of the scan window becomes
`TreeState`, and the on-disk store becomes `Store` (an optional table plus
a writability flag).  Every definition mirrors one Python function of the
repository and is named after it.
-/

set_option maxHeartbeats 1000000

/-! ## Python string primitives -/

/-- Characters stripped by Python `str.strip()` with no argument. -/
def pySpaceChar (c : Char) : Bool :=
  c = ' ' ∨ c = '\t' ∨ c = '\n' ∨ c = '\r' ∨ c = '\x0b' ∨ c = '\x0c'

/-- Left strip on character lists (Python `str.lstrip`). -/
def lstripL (l : List Char) : List Char := l.dropWhile pySpaceChar

/-- Right strip on character lists (Python `str.rstrip`). -/
def rstripL (l : List Char) : List Char := (l.reverse.dropWhile pySpaceChar).reverse

/-- Both-ends strip on character lists (Python `str.strip`). -/
def stripL (l : List Char) : List Char := rstripL (lstripL l)

/-- Python `str.strip()`. -/
def pyStrip (s : String) : String := ⟨stripL s.data⟩

/-- Python `str.rstrip()`. -/
def pyRstrip (s : String) : String := ⟨rstripL s.data⟩

/-- ASCII lower-casing of one character (Python `str.lower`, ASCII range). -/
def lowerChar (c : Char) : Char :=
  if 'A' ≤ c ∧ c ≤ 'Z' then Char.ofNat (c.toNat + 32) else c

/-- Python `str.lower()` (ASCII range; the sources only compare against "nan"). -/
def pyLower (s : String) : String := ⟨s.data.map lowerChar⟩

/-- Python `str.isdigit()` restricted to ASCII digits: true iff the string is
nonempty and all characters are digits. -/
def pyIsdigit (s : String) : Bool := !s.data.isEmpty && s.data.all Char.isDigit

/-- Python `str.zfill(w)` on character lists: left-pad with zeros to width `w`,
keeping a leading sign in place. -/
def zfillL (w : Nat) (l : List Char) : List Char :=
  match l with
  | [] => List.replicate w '0'
  | c :: rest =>
    if c = '+' ∨ c = '-' then c :: (List.replicate (w - 1 - rest.length) '0' ++ rest)
    else List.replicate (w - l.length) '0' ++ l

/-- Python `str.zfill(w)`. -/
def pyZfill (s : String) (w : Nat) : String := ⟨zfillL w s.data⟩

/-! ## ScanWindow string helpers (src/src/ui/scan_window.py) -/

/-- Embeds `ScanWindow._clean_value` (scan_window.py lines 789-793) on string
inputs: strip whitespace, and collapse any case variant of "nan" to the empty
string.  (The `None` / float-NaN guard of the Python code concerns non-string
cells only and is outside the string model.) -/
def clean_value (s : String) : String :=
  let t := pyStrip s
  if pyLower t = "nan" then "" else t

/-- Embeds `ScanWindow.scan_normalize_card` (scan_window.py lines 511-513):
clean the value and zero-pad to 8 characters when it is all digits. -/
def scan_normalize_card (s : String) : String :=
  let text := clean_value s
  if text ≠ "" ∧ pyIsdigit text then pyZfill text 8 else text

/-- Embeds `ScanWindow.scan_append_notes` (scan_window.py lines 546-550). -/
def scan_append_notes (original addition : String) : String :=
  let oc := clean_value original
  let ac := clean_value addition
  if ac = "" then oc
  else if oc = "" then ac
  else pyRstrip oc ++ "\n" ++ ac

/-- Two-digit zero padding as produced by `datetime` `%H` / `%M` / `%S`. -/
def pad2 (n : Nat) : String := if n < 10 then "0" ++ toString n else toString n

/-- Embeds `ScanWindow.scan_now_tag` (scan_window.py lines 561-562): the
timestamp tag `[HH:MM:SS]`, with the wall-clock fields as parameters. -/
def scan_now_tag (h m s : Nat) : String :=
  "[" ++ pad2 h ++ ":" ++ pad2 m ++ ":" ++ pad2 s ++ "]"

/-- ASCII upper-casing of one character. -/
def upperChar (c : Char) : Char :=
  if 'a' ≤ c ∧ c ≤ 'z' then Char.ofNat (c.toNat - 32) else c

def isAlphaChar (c : Char) : Bool :=
  ('a' ≤ c ∧ c ≤ 'z') ∨ ('A' ≤ c ∧ c ≤ 'Z')

/-- Title-casing of a character list; the boolean records whether the previous
character was alphabetic (Python `str.title`, ASCII range). -/
def titleL : List Char → Bool → List Char
  | [], _ => []
  | c :: rest, prevAlpha =>
    (if isAlphaChar c then (if prevAlpha then lowerChar c else upperChar c) else c) ::
      titleL rest (isAlphaChar c)

/-- Python `str.title()` (ASCII range). -/
def pyTitle (s : String) : String := ⟨titleL s.data false⟩

/-- Python `sep.join(parts)` for a nonempty-or-empty list of parts. -/
def joinSep (sep : String) : List String → String
  | [] => ""
  | [x] => x
  | x :: xs => x ++ sep ++ joinSep sep xs

/-- Embeds `ScanWindow.scan_describe_tasks` (scan_window.py lines 539-544). -/
def scan_describe_tasks (tasks : List String) : String :=
  if tasks.isEmpty then ""
  else
    let mapped := tasks.map (fun t =>
      if t = "exam" then "Exam" else if t = "homework" then "Homework" else pyTitle t)
    if mapped.isEmpty then "" else joinSep " & " mapped

/-- Python `x or fallback` on strings (empty string is falsy). -/
def orElseStr (d fallback : String) : String := if d = "" then fallback else d

/-- Note built by `ScanWindow.scan_focus_on_completed` (scan_window.py lines
648-658): prior notes, then the audit line, then the typed note. -/
def scan_focus_completed_note (existing typed tag : String) (missing : List String) : String :=
  let desc := orElseStr (scan_describe_tasks missing) "task"
  scan_append_notes (scan_append_notes existing (tag ++ " Completed " ++ desc ++ " at center.")) typed

/-- Note built by `ScanWindow.scan_focus_on_override` (scan_window.py lines
660-670). -/
def scan_focus_override_note (existing typed tag : String) (missing : List String) : String :=
  let desc := orElseStr (scan_describe_tasks missing) "task"
  scan_append_notes
    (scan_append_notes existing (tag ++ " Attended with override (missing " ++ desc ++ ").")) typed

/-- Note built by `ScanWindow.scan_focus_on_deny` (scan_window.py lines
672-682). -/
def scan_focus_deny_note (existing typed tag : String) (missing : List String) : String :=
  let desc := orElseStr (scan_describe_tasks missing) "requirements"
  scan_append_notes
    (scan_append_notes existing (tag ++ " Denied Entry: No " ++ desc ++ ".")) typed

/-- Note built by `ScanWindow.scan_focus_on_cancel_attendance` (scan_window.py
lines 691-701). -/
def scan_focus_cancel_note (existing typed tag : String) : String :=
  scan_append_notes (scan_append_notes existing (tag ++ " Canceled.")) typed

/-- Note built by `ScanWindow.scan_handle_auto_attend` (scan_window.py lines
635-642): the existing notes joined with the typed note only; the timestamp
tag goes to the timestamp column, not into the notes. -/
def scan_handle_auto_attend_note (existing typed : String) : String :=
  scan_append_notes existing typed

/-! ## Tables (pandas data frames, src/src/utils/helpers.py) -/

/-- A data frame: column headers plus rows.  A row is a total function from
column name to cell text; cells outside `cols` are junk and never read by the
statements below.  (The NaN padding `pd.concat` would give old rows in columns
that did not previously exist is not modeled; all theorems below assume the
written columns are present, as they are in session files.) -/
structure Table where
  cols : List String
  rows : List (String → String)

/-- A record passed to `SessionManager.add_record`: the logical fields of a
row keyed by logical name; a key absent from the Python dict is the empty
string here. -/
structure RecR where
  card_id : String
  student_id : String
  name : String
  phone : String
  attendance : String
  notes : String
  timestamp : String
  exam : String
  homework : String
deriving DecidableEq

/-- Python `self.mapping.get(k, k)`: a column map lookup defaulting to the
logical name itself. -/
def mget (m : String → Option String) (k : String) : String := (m k).getD k

/-- Assignment of one cell of a row (`df.loc[mask, col] = v` restricted to one
row). -/
def setCell (r : String → String) (c v : String) : String → String :=
  fun c2 => if c2 = c then v else r c2

/-- Embeds the pure part of `SessionManager.add_record` (session_manager.py
lines 36-67): the transformation applied to the table read from disk before it
is written back.  The mask is computed once from the card column; matched rows
receive the timestamp (retained when the incoming one is empty), attendance
and notes assignments in that order; otherwise a fresh row is appended whose
cells default to the empty string, with the mapped identity columns filled
only when present, then attendance, notes and timestamp set (creating those
columns in dict insertion order when absent). -/
def add_record_df (m : String → Option String) (rec : RecR) (t : Table) : Table :=
  let card_col := mget m "card_id"
  let att_col := mget m "attendance"
  let notes_col := mget m "notes"
  let ts_col := mget m "timestamp"
  if t.rows.any (fun r => r card_col == rec.card_id) then
    let existing_ts :=
      if ts_col ∈ t.cols then
        (((t.rows.find? (fun r => r card_col == rec.card_id)).map (fun r => r ts_col)).getD "")
      else ""
    let new_ts := if rec.timestamp ≠ "" then rec.timestamp else existing_ts
    { cols := t.cols,
      rows := t.rows.map (fun r =>
        if r card_col == rec.card_id then
          setCell (setCell (setCell r ts_col new_ts) att_col rec.attendance) notes_col rec.notes
        else r) }
  else
    let base : String → String := fun _ => ""
    let r1 := if card_col ∈ t.cols then setCell base card_col rec.card_id else base
    let r2 := if mget m "student_id" ∈ t.cols then setCell r1 (mget m "student_id") rec.student_id else r1
    let r3 := if mget m "name" ∈ t.cols then setCell r2 (mget m "name") rec.name else r2
    let r4 := if mget m "phone" ∈ t.cols then setCell r3 (mget m "phone") rec.phone else r3
    let newRow := setCell (setCell (setCell r4 att_col rec.attendance) notes_col rec.notes) ts_col rec.timestamp
    let e1 := if att_col ∈ t.cols then [] else [att_col]
    let e2 := if notes_col ∈ t.cols ++ e1 then [] else [notes_col]
    let e3 := if ts_col ∈ t.cols ++ e1 ++ e2 then [] else [ts_col]
    { cols := t.cols ++ e1 ++ e2 ++ e3, rows := t.rows ++ [newRow] }

/-! ## The on-disk store (read_data / write_data, helpers.py lines 121-131) -/

/-- The on-disk session file: `table = none` models an unreadable or corrupt
file, `writable = false` a file that cannot be written. -/
structure Store where
  table : Option Table
  writable : Bool

/-- Embeds `read_data`: reading fails exactly when the file is unreadable. -/
def read_data (s : Store) : Except String Table :=
  match s.table with
  | some t => Except.ok t
  | none => Except.error "read failed"

/-- Embeds `write_data`: writing replaces the on-disk table atomically, or
fails leaving it untouched. -/
def write_data (t : Table) (s : Store) : Except String Store :=
  if s.writable then Except.ok { table := some t, writable := s.writable }
  else Except.error "write failed"

/-- Embeds `SessionManager.add_record` with its I/O (session_manager.py lines
36-67): read the table from disk, apply the in-memory edits, then write the
whole table back; any exception propagates to the caller and no state changes
(the second component is the propagated error, if any). -/
def add_record (m : String → Option String) (rec : RecR) (s : Store) : Store × Option String :=
  match read_data s with
  | Except.error e => (s, some e)
  | Except.ok df =>
    match write_data (add_record_df m rec df) s with
    | Except.error e => (s, some e)
    | Except.ok s2 => (s2, none)

/-! ## The scan window tree and scan resolution (src/src/ui/scan_window.py) -/

/-- The restrictions toggle set (helpers.py SETTINGS["restrictions"]). -/
structure Restrictions where
  exam : Bool
  homework : Bool

/-- Treeview columns as built by `ScanWindow._build_ui` (scan_window.py lines
461-464). -/
def build_tree_cols (r : Restrictions) : List String :=
  ["card_id", "student_id", "name", "phone"]
    ++ (if r.exam then ["exam"] else [])
    ++ (if r.homework then ["homework"] else [])
    ++ ["attendance", "notes", "timestamp"]

/-- One loaded row of the treeview: its item id plus its cells. -/
structure TreeRow where
  iid : String
  cells : List (String × String)
deriving DecidableEq

/-- The loaded treeview: columns plus rows (the `_all_iids` that still exist). -/
structure TreeState where
  cols : List String
  rows : List TreeRow
deriving DecidableEq

def lookupCell (cells : List (String × String)) (c : String) : String :=
  ((cells.find? (fun p => p.1 == c)).map (fun p => p.2)).getD ""

def tree_cell (t : TreeState) (iid c : String) : String :=
  ((t.rows.find? (fun r => r.iid == iid)).map (fun r => lookupCell r.cells c)).getD ""

/-- Embeds `ScanWindow.scan_tree_get` (scan_window.py lines 522-526): empty
for unmapped columns, otherwise the cleaned cell value. -/
def scan_tree_get (t : TreeState) (iid c : String) : String :=
  if c ∈ t.cols then clean_value (tree_cell t iid c) else ""

/-- Embeds `ScanWindow.scan_lookup_matches` (scan_window.py lines 515-520).
Python materializes `set(candidates)` (arbitrary iteration order) before the
stable boolean sort; the set is modeled as first-occurrence deduplication, and
the sort by `x != normalized` as the exact match moved to the front. -/
def scan_lookup_matches (t : TreeState) (card_id : String) : List String :=
  let normalized := scan_normalize_card card_id
  if normalized = "" then []
  else
    let candidates := (t.rows.filter (fun r =>
      scan_normalize_card r.iid == normalized ||
        scan_normalize_card (scan_tree_get t r.iid "card_id") == normalized)).map (fun r => r.iid)
    let unique := candidates.eraseDups
    unique.filter (fun x => x == normalized) ++ unique.filter (fun x => x != normalized)

/-- Embeds `ScanWindow.scan_collect_missing_tasks` (scan_window.py lines
528-537). -/
def scan_collect_missing_tasks (r : Restrictions) (t : TreeState) (iid : String) : List String :=
  let exam_grade := scan_tree_get t iid "exam"
  let hw_grade := scan_tree_get t iid "homework"
  (if r.exam ∧ "exam" ∈ t.cols ∧ (exam_grade = "" ∨ exam_grade = "0") then ["exam"] else [])
    ++ (if r.homework ∧ "homework" ∈ t.cols ∧ (hw_grade = "" ∨ hw_grade = "0") then ["homework"] else [])

/-- One `tree.set(iid, c, v)` assignment on an association list of cells. -/
def update_cells (cells : List (String × String)) (c v : String) : List (String × String) :=
  if (cells.find? (fun p => p.1 == c)).isSome then
    cells.map (fun p => if p.1 == c then (c, v) else p)
  else cells ++ [(c, v)]

/-- Embeds `ScanWindow._update_row` (scan_window.py lines 871-877) with a
timestamp supplied. -/
def update_row (t : TreeState) (code att notes ts : String) : TreeState :=
  { t with rows := t.rows.map (fun r =>
      if r.iid == code then
        { r with cells :=
            update_cells (update_cells (update_cells r.cells "attendance" (clean_value att))
              "notes" (clean_value notes)) "timestamp" (clean_value ts) }
      else r) }

/-- Embeds `ScanWindow._build_record_payload` (scan_window.py lines 866-869). -/
def build_record_payload (t : TreeState) (code att notes ts : String) : RecR :=
  { card_id := code, attendance := att, notes := notes, timestamp := ts,
    student_id := if "student_id" ∈ t.cols then scan_tree_get t code "student_id" else "",
    name := if "name" ∈ t.cols then scan_tree_get t code "name" else "",
    phone := if "phone" ∈ t.cols then scan_tree_get t code "phone" else "",
    exam := if "exam" ∈ t.cols then scan_tree_get t code "exam" else "",
    homework := if "homework" ∈ t.cols then scan_tree_get t code "homework" else "" }

/-- Embeds `ScanWindow._set_attendance` (scan_window.py lines 849-864): the
boolean reports success, the tree is updated, and the emitted records are the
upserts sent to `SessionManager.add_record`. -/
def set_attendance (t : TreeState) (code attendance notes : String) (warnOnDuplicate : Bool)
    (tsOverride : String) : Bool × TreeState × List RecR :=
  if (t.rows.find? (fun r => r.iid == code)).isNone then (false, t, [])
  else
    let target := clean_value attendance
    if warnOnDuplicate ∧ pyLower target = "attend" ∧
        pyLower (scan_tree_get t code "attendance") = "attend" then (false, t, [])
    else
      let payload := build_record_payload t code target (clean_value notes) tsOverride
      (true, update_row t code target notes tsOverride, [payload])

/-- Outcome of one scan event. -/
inductive ScanResult where
  | noop : ScanResult
  | notFound : String → ScanResult
  | duplicate : List String → ScanResult
  | opened : String → ScanResult
deriving DecidableEq

/-- Embeds `ScanWindow.scan_on_scan` (scan_window.py lines 597-617) together
with the auto-attend path it can trigger through `scan_on_open_row` and
`scan_handle_auto_attend` (lines 624-642): `tag` is the `scan_now_tag` value
and `typed` the collected focus-view note.  Returns the classification, the
updated tree, and the records upserted to the session store. -/
def scan_on_scan_step (readOnly : Bool) (r : Restrictions) (t : TreeState)
    (entry tag typed : String) : ScanResult × TreeState × List RecR :=
  if readOnly then (ScanResult.noop, t, [])
  else
    let normalized := scan_normalize_card entry
    if normalized = "" then (ScanResult.noop, t, [])
    else
      let found := scan_lookup_matches t normalized
      match found with
      | [] => (ScanResult.notFound normalized, t, [])
      | [m] =>
        let attendance := pyLower (scan_tree_get t m "attendance")
        let missing := scan_collect_missing_tasks r t m
        let already := attendance = "attend"
        let status :=
          if ¬missing.isEmpty then (if "exam" ∈ missing then "missing_exam" else "missing_homework")
          else "ok"
        if status = "ok" ∧ ¬already then
          let final_note := scan_append_notes (scan_tree_get t m "notes") typed
          let result := set_attendance t m "attend" final_note false tag
          (ScanResult.opened m, result.2.1, result.2.2)
        else (ScanResult.opened m, t, [])
      | _ => (ScanResult.duplicate found, t, [])

/-! ## Settings window mapping validation (src/src/ui/settings_window.py) -/

/-- The 9 logical field keys of `SettingsWindow.mapping_fields` (lines 53-63). -/
def mapping_fields : List String :=
  ["card_id", "student_id", "name", "phone", "attendance", "notes", "timestamp", "exam", "homework"]

/-- Embeds `SettingsWindow._collect_mapping` (lines 188-195); `m` gives each
field's chosen header, the placeholder already collapsed to the empty string. -/
def collect_mapping (m : String → String) : List String := mapping_fields.map m

/-- Embeds `SettingsWindow._is_mapping_valid` (lines 197-202): reject an empty
value list or any empty entry, then require all entries pairwise distinct
(Python `len(values) == len(set(values))`). -/
def is_mapping_valid (m : String → String) : Bool :=
  let values := collect_mapping m
  if values.isEmpty ∨ "" ∈ values then false
  else decide values.Nodup

/-- Modelled from the spec: "must be a bijection over the non-empty entries to
be accepted" — injectivity of the mapping restricted to the logical fields
whose entry is non-empty.  Used only to compare the spec's acceptance
condition with `is_mapping_valid`. -/
def spec_mapping_bijective_over_nonempty (m : String → String) : Prop :=
  ∀ k1 ∈ mapping_fields, ∀ k2 ∈ mapping_fields,
    m k1 ≠ "" → m k2 ≠ "" → m k1 = m k2 → k1 = k2

/-! ## Fallback identifiers for manual additions (scan_window.py 892-923) -/

/-- Python `s.startswith(p)`. -/
def pyStartswith (s p : String) : Bool := p.data.isPrefixOf s.data

/-- Numeric value of a digit list. -/
def natOfDigits (ds : List Char) : Nat := ds.foldl (fun a c => 10 * a + (c.toNat - 48)) 0

/-- Python `int(s)` on strings: optional surrounding whitespace, optional
sign, then digits; `none` models the `ValueError`.  (Underscore digit
separators are not modeled.) -/
def pyInt? (l : List Char) : Option Int :=
  let t := stripL l
  match t with
  | '-' :: ds =>
    if ds ≠ [] ∧ ds.all Char.isDigit then some (-(Int.ofNat (natOfDigits ds))) else none
  | '+' :: ds =>
    if ds ≠ [] ∧ ds.all Char.isDigit then some (Int.ofNat (natOfDigits ds)) else none
  | ds => if ds ≠ [] ∧ ds.all Char.isDigit then some (Int.ofNat (natOfDigits ds)) else none

/-- The separator of `cid.split("Unknown ")`. -/
def unknown_sep : List Char := "Unknown ".data

/-- Left-to-right scan for the last element of Python `l.split("Unknown ")`:
`skip` counts separator characters still to be consumed, `acc` the current
segment reversed.  (The separator "Unknown " has no non-trivial border, so
the non-overlapping scan finds exactly the infix occurrences.) -/
def lastSegAux : Nat → List Char → List Char → List Char
  | _, acc, [] => acc.reverse
  | skip + 1, acc, _ :: rest => lastSegAux skip acc rest
  | 0, acc, c :: rest =>
    if unknown_sep.isPrefixOf (c :: rest) then lastSegAux 7 [] rest
    else lastSegAux 0 (c :: acc) rest

/-- The last element of Python `l.split("Unknown ")`: the text after the last
separator occurrence of the left-to-right non-overlapping scan. -/
def last_unknown_seg (l : List Char) : List Char := lastSegAux 0 [] l

/-- The suffix integers scanned by `ScanWindow._next_unknown_card_id`
(scan_window.py lines 918-923); `none` models the `ValueError` raised when a
record starting with "Unknown " has a non-numeric suffix. -/
def unknown_suffix_ints (records : List String) : Option (List Int) :=
  (records.filter (fun cid => pyStartswith cid "Unknown ")).mapM
    (fun cid => pyInt? (last_unknown_seg cid.data))

/-- Python `max(l, default=d)`. -/
def pyMaxD (l : List Int) (d : Int) : Int :=
  match l with
  | [] => d
  | x :: xs => xs.foldl max x

/-- Embeds `ScanWindow._next_unknown_card_id` (scan_window.py lines 918-923):
`counter` is the cached `_unknown_counter` (`none` before the first call);
returns the fallback identifier and the updated counter. -/
def next_unknown_card_id (records : List String) (counter : Option Int) :
    Option (String × Int) :=
  match counter with
  | some c => some ("Unknown " ++ toString (c + 1), c + 1)
  | none =>
    (unknown_suffix_ints records).map
      (fun l => ("Unknown " ++ toString (pyMaxD l 0 + 1), pyMaxD l 0 + 1))

/-- Embeds `ScanWindow._handle_add_student_submission` (scan_window.py lines
892-916) up to the record it sends to `SessionManager.add_record`: `values`
from the dialog are the three identity fields; exam/homework `setdefault` to
the empty string (absent keys are the empty string in `RecR`). -/
def handle_add_student_submission (cardId : Option String)
    (student_id name phone default_notes tag : String)
    (records : List String) (counter : Option Int) : Option RecR :=
  let cid0? : Option String :=
    match cardId with
    | some c =>
      if c = "" then (next_unknown_card_id records counter).map (fun p => p.1)
      else some (pyStrip c)
    | none => (next_unknown_card_id records counter).map (fun p => p.1)
  cid0?.map (fun cid0 =>
    let cid := if pyIsdigit cid0 then pyZfill cid0 8 else cid0
    { card_id := cid, attendance := "attend", timestamp := tag,
      student_id := student_id, name := name, phone := phone,
      notes := default_notes, exam := "", homework := "" })

/-! ## Basic lemmas about the string primitives -/

theorem dropWhile_idem (p : Char → Bool) (l : List Char) :
    (l.dropWhile p).dropWhile p = l.dropWhile p := by
  induction l with
  | nil => rfl
  | cons a l ih =>
    by_cases h : p a = true
    · simp [List.dropWhile_cons, h, ih]
    · simp [List.dropWhile_cons, h]

theorem dropWhile_suffixOf (p : Char → Bool) (l : List Char) :
    ∃ u, u ++ l.dropWhile p = l := by
  induction l with
  | nil => exact ⟨[], rfl⟩
  | cons a l ih =>
    by_cases h : p a = true
    · obtain ⟨u, hu⟩ := ih
      exact ⟨a :: u, by simp [List.dropWhile_cons, h, hu]⟩
    · exact ⟨[], by simp [List.dropWhile_cons, h]⟩

theorem lstripL_idem (l : List Char) : lstripL (lstripL l) = lstripL l :=
  dropWhile_idem pySpaceChar l

theorem rstripL_idem (l : List Char) : rstripL (rstripL l) = rstripL l := by
  simp [rstripL, dropWhile_idem]

/-- The right strip of a list is one of its prefixes. -/
theorem rstripL_prefixOf (l : List Char) : ∃ u, rstripL l ++ u = l := by
  obtain ⟨u, hu⟩ := dropWhile_suffixOf pySpaceChar l.reverse
  refine ⟨u.reverse, ?_⟩
  have := congrArg List.reverse hu
  simpa [rstripL] using this

theorem dropWhile_length_le (p : Char → Bool) (l : List Char) :
    (l.dropWhile p).length ≤ l.length := by
  induction l with
  | nil => simp
  | cons a l ih =>
    by_cases h : p a = true
    · simp only [List.dropWhile_cons, h, if_true]
      exact Nat.le_succ_of_le ih
    · simp [List.dropWhile_cons, h]

/-- A list whose head does not satisfy `p` is unchanged by `dropWhile`. -/
theorem dropWhile_eq_self_of_head (p : Char → Bool) (l : List Char)
    (h : ∀ c rest, l = c :: rest → p c = false) : l.dropWhile p = l := by
  cases l with
  | nil => rfl
  | cons c rest => simp [List.dropWhile_cons, h c rest rfl]

/-- Left-trimmedness is preserved by right stripping. -/
theorem lstripL_rstripL_of_lstripped (l : List Char) (h : lstripL l = l) :
    lstripL (rstripL l) = rstripL l := by
  apply dropWhile_eq_self_of_head
  intro c rest hcr
  obtain ⟨u, hu⟩ := rstripL_prefixOf l
  rw [hcr] at hu
  by_contra hc
  have hc' : pySpaceChar c = true := by
    cases hpc : pySpaceChar c
    · exact absurd hpc hc
    · rfl
  have hl : l = c :: (rest ++ u) := by rw [← hu]; rfl
  have hdrop : lstripL l = (rest ++ u).dropWhile pySpaceChar := by
    rw [hl]
    simp [lstripL, List.dropWhile_cons, hc']
  rw [h] at hdrop
  have hlen : l.length ≤ (rest ++ u).length := by
    rw [hdrop]
    exact dropWhile_length_le pySpaceChar (rest ++ u)
  rw [hl] at hlen
  simp at hlen

theorem stripL_idem (l : List Char) : stripL (stripL l) = stripL l := by
  unfold stripL
  rw [lstripL_rstripL_of_lstripped (lstripL l) (lstripL_idem l)]
  exact rstripL_idem (lstripL l)

/-- A list all of whose characters are non-space is unchanged by `stripL`. -/
theorem stripL_eq_self_of_all (l : List Char)
    (h : ∀ c ∈ l, pySpaceChar c = false) : stripL l = l := by
  have hl : lstripL l = l := by
    apply dropWhile_eq_self_of_head
    intro c rest hcr
    exact h c (hcr ▸ List.mem_cons_self c rest)
  have hr : rstripL l = l := by
    unfold rstripL
    rw [dropWhile_eq_self_of_head]
    · exact l.reverse_reverse
    · intro c rest hcr
      apply h c
      have : c ∈ l.reverse := hcr ▸ List.mem_cons_self c rest
      exact List.mem_reverse.mp this
  unfold stripL
  rw [hl, hr]

theorem digit_not_space {c : Char} (h : c.isDigit = true) : pySpaceChar c = false := by
  simp [pySpaceChar]
  refine ⟨?_, ?_, ?_, ?_, ?_, ?_⟩ <;>
    · intro hc
      subst hc
      exact absurd h (by decide)

theorem digit_lowerChar {c : Char} (h : c.isDigit = true) : lowerChar c = c := by
  simp only [Char.isDigit, Bool.and_eq_true, decide_eq_true_eq, Char.le_def] at h
  unfold lowerChar
  rw [if_neg]
  intro hAB
  obtain ⟨hA, _⟩ := hAB
  rw [Char.le_def] at hA
  obtain ⟨h1, h2⟩ := h
  have e2 : ('A' : Char).val.toNat = 65 := by decide
  have hA' : ('A' : Char).val.toNat ≤ c.val.toNat := by exact_mod_cast hA
  have h2' : c.val.toNat ≤ ('9' : Char).val.toNat := by exact_mod_cast h2
  have e1 : ('9' : Char).val.toNat = 57 := by decide
  omega

theorem zero_is_digit : ('0' : Char).isDigit = true := by decide

/-- All-digit strings survive `clean_value`-style stripping. -/
theorem stripL_digits (l : List Char) (h : l.all Char.isDigit = true) :
    stripL l = l := by
  apply stripL_eq_self_of_all
  intro c hc
  exact digit_not_space (by simpa using List.all_eq_true.mp h c hc)

theorem lower_digits_ne_nan (l : List Char)
    (h : l.all Char.isDigit = true) : l.map lowerChar ≠ "nan".data := by
  intro hmap
  have hmem : 'n' ∈ l.map lowerChar := by
    rw [hmap]
    decide
  obtain ⟨c, hc, hlc⟩ := List.mem_map.mp hmem
  have hcd : c.isDigit = true := by simpa using List.all_eq_true.mp h c hc
  rw [digit_lowerChar hcd] at hlc
  subst hlc
  exact absurd hcd (by decide)

theorem mk_data (s : String) : (⟨s.data⟩ : String) = s := rfl

theorem str_eq_empty_iff (s : String) : s = "" ↔ s.data = [] := by
  constructor
  · intro h
    rw [h]
  · intro h
    have h2 : s = ⟨s.data⟩ := rfl
    rw [h2, h]

theorem pyStrip_idem (s : String) : pyStrip (pyStrip s) = pyStrip s :=
  congrArg String.mk (stripL_idem s.data)

theorem clean_value_cases (s : String) :
    clean_value s = if pyLower (pyStrip s) = "nan" then "" else pyStrip s := rfl

theorem clean_value_idem (s : String) : clean_value (clean_value s) = clean_value s := by
  by_cases h : pyLower (pyStrip s) = "nan"
  · have h1 : clean_value s = "" := by rw [clean_value_cases s, if_pos h]
    rw [h1]
    decide
  · have h1 : clean_value s = pyStrip s := by rw [clean_value_cases s, if_neg h]
    rw [h1, clean_value_cases (pyStrip s), pyStrip_idem, if_neg h]

theorem pyIsdigit_iff (s : String) :
    pyIsdigit s = true ↔ s.data ≠ [] ∧ s.data.all Char.isDigit = true := by
  simp [pyIsdigit, List.isEmpty_iff]

theorem clean_value_of_digits (s : String) (h : pyIsdigit s = true) : clean_value s = s := by
  obtain ⟨hne, hdig⟩ := (pyIsdigit_iff s).mp h
  have hstrip : pyStrip s = s := by
    show (⟨stripL s.data⟩ : String) = s
    rw [stripL_digits s.data hdig]
  have hlow : pyLower (pyStrip s) ≠ "nan" := by
    rw [hstrip]
    intro hl
    exact lower_digits_ne_nan s.data hdig (congrArg String.data hl)
  rw [clean_value_cases, if_neg hlow, hstrip]

theorem clean_value_eq_pyStrip_of_digits (s : String) (h : pyIsdigit (pyStrip s) = true) :
    clean_value s = pyStrip s := by
  obtain ⟨hne, hdig⟩ := (pyIsdigit_iff _).mp h
  have hlow : pyLower (pyStrip s) ≠ "nan" := by
    intro hl
    exact lower_digits_ne_nan (pyStrip s).data hdig (congrArg String.data hl)
  rw [clean_value_cases, if_neg hlow]

theorem digit_ne_plus {c : Char} (h : c.isDigit = true) : c ≠ '+' := by
  intro hc
  subst hc
  exact absurd h (by decide)

theorem digit_ne_minus {c : Char} (h : c.isDigit = true) : c ≠ '-' := by
  intro hc
  subst hc
  exact absurd h (by decide)

theorem zfillL_digits (l : List Char) (hd : l.all Char.isDigit = true) (hne : l ≠ []) :
    zfillL 8 l = List.replicate (8 - l.length) '0' ++ l := by
  cases l with
  | nil => exact absurd rfl hne
  | cons c rest =>
    have hc : c.isDigit = true := by
      simpa using List.all_eq_true.mp hd c (List.mem_cons_self c rest)
    show (if c = '+' ∨ c = '-' then c :: (List.replicate (8 - 1 - rest.length) '0' ++ rest)
      else List.replicate (8 - (c :: rest).length) '0' ++ (c :: rest)) =
      List.replicate (8 - (c :: rest).length) '0' ++ (c :: rest)
    rw [if_neg]
    intro hpm
    cases hpm with
    | inl h => exact digit_ne_plus hc h
    | inr h => exact digit_ne_minus hc h

theorem all_digits_pad (k : Nat) (l : List Char) (h : l.all Char.isDigit = true) :
    (List.replicate k '0' ++ l).all Char.isDigit = true := by
  rw [List.all_append, h, Bool.and_true, List.all_eq_true]
  intro c hc
  rw [List.eq_of_mem_replicate hc]
  decide

theorem scan_normalize_card_cases (s : String) :
    scan_normalize_card s =
      if clean_value s ≠ "" ∧ pyIsdigit (clean_value s) = true then pyZfill (clean_value s) 8
      else clean_value s := rfl

theorem scan_normalize_idem_lemma (s : String) :
    scan_normalize_card (scan_normalize_card s) = scan_normalize_card s := by
  rw [scan_normalize_card_cases s]
  by_cases h : clean_value s ≠ "" ∧ pyIsdigit (clean_value s) = true
  · rw [if_pos h]
    obtain ⟨hne, hdig⟩ := h
    obtain ⟨hdne, hdall⟩ := (pyIsdigit_iff _).mp hdig
    have hdata : (pyZfill (clean_value s) 8).data =
        List.replicate (8 - (clean_value s).data.length) '0' ++ (clean_value s).data :=
      zfillL_digits _ hdall hdne
    have hall : (pyZfill (clean_value s) 8).data.all Char.isDigit = true := by
      rw [hdata]
      exact all_digits_pad _ _ hdall
    have hdlen : 1 ≤ (clean_value s).data.length := by
      cases hc : (clean_value s).data with
      | nil => exact absurd hc hdne
      | cons a as => simp
    have hlen : 8 ≤ (pyZfill (clean_value s) 8).data.length := by
      rw [hdata]
      simp only [List.length_append, List.length_replicate]
      omega
    have hzne : (pyZfill (clean_value s) 8).data ≠ [] := by
      intro hnil
      rw [hnil] at hlen
      simp at hlen
    have hzdig : pyIsdigit (pyZfill (clean_value s) 8) = true :=
      (pyIsdigit_iff _).mpr ⟨hzne, hall⟩
    have hzclean : clean_value (pyZfill (clean_value s) 8) = pyZfill (clean_value s) 8 :=
      clean_value_of_digits _ hzdig
    have hzne' : pyZfill (clean_value s) 8 ≠ "" := by
      intro hemp
      exact hzne ((str_eq_empty_iff _).mp hemp)
    rw [scan_normalize_card_cases, hzclean, if_pos ⟨hzne', hzdig⟩]
    show (⟨zfillL 8 (pyZfill (clean_value s) 8).data⟩ : String) = _
    rw [zfillL_digits _ hall hzne]
    have hz : 8 - (pyZfill (clean_value s) 8).data.length = 0 := by omega
    rw [hz]
    exact mk_data _
  · rw [if_neg h]
    rw [scan_normalize_card_cases (clean_value s), clean_value_idem]
    rw [if_neg h]

/-! ## Claim C10: normalization is idempotent -/

/-- C10: card-id normalization is idempotent — normalizing an
already-normalized token returns it unchanged, so re-scanning a normalized id
resolves to the same identifier. -/
theorem scan_normalize_card_idem (s : String) :
    scan_normalize_card (scan_normalize_card s) = scan_normalize_card s :=
  scan_normalize_idem_lemma s

/-! ## Claim C2: normalization of scan tokens -/

/-- C2 (amended): after trimming whitespace, a token consisting only of digits
of length at most 8 normalizes to exactly 8 characters by left zero-padding; a
non-numeric token whose trimmed form is not a case variant of "nan" passes
through unchanged after trimming; a token trimming to a case variant of "nan"
normalizes to the empty string. -/
theorem scan_normalize_card_spec (s : String) :
    (pyIsdigit (pyStrip s) = true → (pyStrip s).data.length ≤ 8 →
      scan_normalize_card s =
        ⟨List.replicate (8 - (pyStrip s).data.length) '0' ++ (pyStrip s).data⟩ ∧
        (scan_normalize_card s).data.length = 8)
    ∧ (pyIsdigit (pyStrip s) = false → pyLower (pyStrip s) ≠ "nan" →
        scan_normalize_card s = pyStrip s)
    ∧ (pyLower (pyStrip s) = "nan" → scan_normalize_card s = "") := by
  refine ⟨?_, ?_, ?_⟩
  · intro hdig hlen
    have hclean : clean_value s = pyStrip s := clean_value_eq_pyStrip_of_digits s hdig
    obtain ⟨hdne, hdall⟩ := (pyIsdigit_iff _).mp hdig
    have hne : pyStrip s ≠ "" := by
      intro hemp
      exact hdne ((str_eq_empty_iff _).mp hemp)
    have heq : scan_normalize_card s = pyZfill (pyStrip s) 8 := by
      rw [scan_normalize_card_cases, hclean, if_pos ⟨hne, hdig⟩]
    constructor
    · rw [heq]
      exact congrArg String.mk (zfillL_digits _ hdall hdne)
    · rw [heq]
      show (zfillL 8 (pyStrip s).data).length = 8
      rw [zfillL_digits _ hdall hdne]
      have h1 : 1 ≤ (pyStrip s).data.length := by
        cases hc : (pyStrip s).data with
        | nil => exact absurd hc hdne
        | cons a as => simp
      simp only [List.length_append, List.length_replicate]
      omega
  · intro hdig hlow
    have hclean : clean_value s = pyStrip s := by
      rw [clean_value_cases, if_neg hlow]
    rw [scan_normalize_card_cases, hclean, if_neg]
    intro hcond
    rw [hdig] at hcond
    exact absurd hcond.2 (by simp)
  · intro hlow
    have hclean : clean_value s = "" := by
      rw [clean_value_cases, if_pos hlow]
    rw [scan_normalize_card_cases, hclean, if_neg]
    intro hcond
    exact hcond.1 rfl

/-- Witness for C2 at the token " 42 ": it is trimmed to the digit string "42"
and zero-padded to 8 characters. -/
theorem scan_normalize_card_spec_witness :
    scan_normalize_card " 42 " =
      ⟨List.replicate (8 - (pyStrip " 42 ").data.length) '0' ++ (pyStrip " 42 ").data⟩ ∧
      (scan_normalize_card " 42 ").data.length = 8 :=
  (scan_normalize_card_spec " 42 ").1 (by decide) (by decide)

/-- Counterexample for C2 as stated: the token "nan" is non-numeric, trims to
itself, yet normalization returns the empty string rather than the trimmed
token. -/
theorem scan_normalize_card_nan_counterexample :
    pyStrip " nan " = "nan" ∧ pyIsdigit "nan" = false ∧
      scan_normalize_card " nan " = "" ∧ scan_normalize_card " nan " ≠ pyStrip " nan " := by
  decide

/-! ## Lemmas about note appending (claim C6) -/

theorem rstripL_stripL (l : List Char) : rstripL (stripL l) = stripL l :=
  rstripL_idem (lstripL l)

theorem pyRstrip_clean (s : String) : pyRstrip (clean_value s) = clean_value s := by
  by_cases h : pyLower (pyStrip s) = "nan"
  · rw [clean_value_cases, if_pos h]
    decide
  · rw [clean_value_cases, if_neg h]
    exact congrArg String.mk (rstripL_stripL s.data)

/-- Characterization of `scan_append_notes` on already-cleaned arguments. -/
theorem scan_append_notes_of_clean (p a : String) (hp : clean_value p = p)
    (ha : clean_value a = a) (hane : a ≠ "") :
    scan_append_notes p a = if p = "" then a else p ++ "\n" ++ a := by
  show (if clean_value a = "" then clean_value p
    else if clean_value p = "" then clean_value a
    else pyRstrip (clean_value p) ++ "\n" ++ clean_value a) = _
  rw [ha, hp, if_neg hane]
  by_cases hpe : p = ""
  · rw [if_pos hpe, if_pos hpe]
  · rw [if_neg hpe, if_neg hpe]
    have hr : pyRstrip p = p := by
      rw [← hp]
      exact pyRstrip_clean p
    rw [hr]

theorem dropWhile_eq_self_of_length (p : Char → Bool) (l : List Char)
    (h : (l.dropWhile p).length = l.length) : l.dropWhile p = l := by
  cases l with
  | nil => rfl
  | cons a l =>
    by_cases hpa : p a = true
    · exfalso
      rw [List.dropWhile_cons, if_pos hpa] at h
      have := dropWhile_length_le p l
      rw [h] at this
      simp at this
    · rw [List.dropWhile_cons, if_neg hpa]

theorem rstripL_length_le (l : List Char) : (rstripL l).length ≤ l.length := by
  unfold rstripL
  rw [List.length_reverse]
  have := dropWhile_length_le pySpaceChar l.reverse
  rw [List.length_reverse] at this
  exact this

theorem lstripL_eq_self_of_stripL (l : List Char) (h : stripL l = l) : lstripL l = l := by
  have h1 : (stripL l).length ≤ (lstripL l).length := rstripL_length_le (lstripL l)
  have h2 : (lstripL l).length ≤ l.length := dropWhile_length_le pySpaceChar l
  rw [h] at h1
  unfold lstripL at h1 h2 ⊢
  exact dropWhile_eq_self_of_length pySpaceChar l (by omega)

theorem rstripL_eq_self_of_stripL (l : List Char) (h : stripL l = l) : rstripL l = l := by
  have hl : lstripL l = l := lstripL_eq_self_of_stripL l h
  have : stripL l = rstripL l := by
    unfold stripL
    rw [hl]
  rw [← this, h]

theorem head_false_of_dropWhile_eq_self (p : Char → Bool) (l : List Char)
    (h : l.dropWhile p = l) : ∀ c rest, l = c :: rest → p c = false := by
  intro c rest hl
  subst hl
  by_contra hc
  have hc' : p c = true := by
    cases hpc : p c
    · exact absurd hpc hc
    · rfl
  rw [List.dropWhile_cons, if_pos hc'] at h
  have hlen := congrArg List.length h
  have := dropWhile_length_le p rest
  simp at hlen
  omega

theorem pyStrip_eq_self_of_clean (p : String) (hp : clean_value p = p) (hpne : p ≠ "") :
    pyStrip p = p := by
  by_cases h : pyLower (pyStrip p) = "nan"
  · rw [clean_value_cases, if_pos h] at hp
    exact absurd hp.symm hpne
  · rw [clean_value_cases, if_neg h] at hp
    exact hp

theorem clean_head_not_space (p : String) (hp : clean_value p = p) (hpne : p ≠ "") :
    ∀ c rest, p.data = c :: rest → pySpaceChar c = false := by
  have hstrip : pyStrip p = p := pyStrip_eq_self_of_clean p hp hpne
  have hsl : stripL p.data = p.data := congrArg String.data hstrip
  have hls : lstripL p.data = p.data := lstripL_eq_self_of_stripL p.data hsl
  exact head_false_of_dropWhile_eq_self pySpaceChar p.data hls

theorem stripL_eq_self_of_ends (l : List Char)
    (hhead : ∀ c rest, l = c :: rest → pySpaceChar c = false)
    (hlast : ∀ c rest, l.reverse = c :: rest → pySpaceChar c = false) : stripL l = l := by
  have hl : lstripL l = l := dropWhile_eq_self_of_head pySpaceChar l hhead
  have hr : rstripL l = l := by
    unfold rstripL
    rw [dropWhile_eq_self_of_head pySpaceChar l.reverse hlast]
    exact l.reverse_reverse
  unfold stripL
  rw [hl, hr]

theorem clean_value_eq_self_of_ends (z : String)
    (hhead : ∀ c rest, z.data = c :: rest → pySpaceChar c = false)
    (hlast : ∀ c rest, z.data.reverse = c :: rest → pySpaceChar c = false)
    (hnan : z.data.map lowerChar ≠ "nan".data) : clean_value z = z := by
  have hstrip : pyStrip z = z := by
    show (⟨stripL z.data⟩ : String) = z
    rw [stripL_eq_self_of_ends z.data hhead hlast]
  have hlow : pyLower (pyStrip z) ≠ "nan" := by
    rw [hstrip]
    intro hl
    exact hnan (congrArg String.data hl)
  rw [clean_value_cases, if_neg hlow, hstrip]

theorem map_lower_ne_nan_of_head (l : List Char) (c : Char) (rest : List Char)
    (h : l = c :: rest) (hc : lowerChar c ≠ 'n') : l.map lowerChar ≠ "nan".data := by
  subst h
  intro hm
  rw [List.map_cons] at hm
  have hd : lowerChar c = 'n' := by
    have h2 := congrArg List.head? hm
    simpa using h2
  exact hc hd

theorem lower_ne_nan_of_mem_newline (l : List Char) (h : '\n' ∈ l) :
    l.map lowerChar ≠ "nan".data := by
  intro hm
  have hmem : '\n' ∈ l.map lowerChar := List.mem_map.mpr ⟨'\n', h, by decide⟩
  rw [hm] at hmem
  exact absurd hmem (by decide)

theorem head_append_str (s t : String) (c : Char) (rest : List Char)
    (h : s.data = c :: rest) : (s ++ t).data = c :: (rest ++ t.data) := by
  rw [String.data_append, h]
  rfl

theorem str_ne_empty_of_head (s : String) (c : Char) (rest : List Char)
    (h : s.data = c :: rest) : s ≠ "" := by
  intro he
  rw [(str_eq_empty_iff s).mp he] at h
  exact List.noConfusion h

theorem scan_append_notes_cases (p a : String) :
    scan_append_notes p a =
      if clean_value a = "" then clean_value p
      else if clean_value p = "" then clean_value a
      else pyRstrip (clean_value p) ++ "\n" ++ clean_value a := rfl

/-- Appending an audit action note of the shape `tag ++ " " ++ B` (with `B`
ending in a full stop) and then the typed note keeps the prior notes as an
untouched prefix, followed by one newline and the tagged audit line. -/
theorem append_notes_action_shape (existing typed tag B : String)
    (hcleanE : clean_value existing = existing) (hEne : existing ≠ "")
    (hcleanT : clean_value typed = typed)
    (htag : ∃ r, tag.data = '[' :: r)
    (hB : ∃ r, B.data.reverse = '.' :: r) :
    ∃ tail, scan_append_notes (scan_append_notes existing (tag ++ " " ++ B)) typed =
      existing ++ "\n" ++ tag ++ " " ++ tail := by
  obtain ⟨tr, htr⟩ := htag
  obtain ⟨br, hbr⟩ := hB
  have hAdata : (tag ++ " " ++ B).data = '[' :: ((tr ++ " ".data) ++ B.data) := by
    have h1 : (tag ++ " ").data = '[' :: (tr ++ " ".data) := head_append_str tag " " '[' tr htr
    exact head_append_str (tag ++ " ") B '[' (tr ++ " ".data) h1
  have hAne : (tag ++ " " ++ B) ≠ "" := str_ne_empty_of_head _ '[' _ hAdata
  have hArev : (tag ++ " " ++ B).data.reverse = '.' :: (br ++ (tag ++ " ").data.reverse) := by
    rw [String.data_append (tag ++ " ") B, List.reverse_append, hbr]
    rfl
  have hAclean : clean_value (tag ++ " " ++ B) = tag ++ " " ++ B := by
    apply clean_value_eq_self_of_ends
    · intro c rest hc
      rw [hAdata] at hc
      injection hc with h1 h2
      rw [← h1]
      decide
    · intro c rest hc
      rw [hArev] at hc
      injection hc with h1 h2
      rw [← h1]
      decide
    · exact map_lower_ne_nan_of_head _ '[' _ hAdata (by decide)
  have hmid : scan_append_notes existing (tag ++ " " ++ B) =
      existing ++ "\n" ++ (tag ++ " " ++ B) := by
    rw [scan_append_notes_of_clean existing _ hcleanE hAclean hAne, if_neg hEne]
  obtain ⟨e0, er, her⟩ : ∃ e0 er, existing.data = e0 :: er := by
    cases hd : existing.data with
    | nil => exact absurd ((str_eq_empty_iff existing).mpr hd) hEne
    | cons a as => exact ⟨a, as, rfl⟩
  have hM1 : (existing ++ "\n").data = e0 :: (er ++ "\n".data) :=
    head_append_str existing "\n" e0 er her
  have hMdata : (existing ++ "\n" ++ (tag ++ " " ++ B)).data =
      e0 :: ((er ++ "\n".data) ++ (tag ++ " " ++ B).data) :=
    head_append_str (existing ++ "\n") (tag ++ " " ++ B) e0 (er ++ "\n".data) hM1
  have hMne : existing ++ "\n" ++ (tag ++ " " ++ B) ≠ "" :=
    str_ne_empty_of_head _ e0 _ hMdata
  have hMrev : (existing ++ "\n" ++ (tag ++ " " ++ B)).data.reverse =
      '.' :: ((br ++ (tag ++ " ").data.reverse) ++ (existing ++ "\n").data.reverse) := by
    rw [String.data_append (existing ++ "\n") (tag ++ " " ++ B), List.reverse_append, hArev]
    rfl
  have hMclean : clean_value (existing ++ "\n" ++ (tag ++ " " ++ B)) =
      existing ++ "\n" ++ (tag ++ " " ++ B) := by
    apply clean_value_eq_self_of_ends
    · intro c rest hc
      rw [hMdata] at hc
      injection hc with h1 h2
      rw [← h1]
      exact clean_head_not_space existing hcleanE hEne e0 er her
    · intro c rest hc
      rw [hMrev] at hc
      injection hc with h1 h2
      rw [← h1]
      decide
    · apply lower_ne_nan_of_mem_newline
      rw [String.data_append (existing ++ "\n") _, String.data_append existing "\n"]
      exact List.mem_append.mpr (Or.inl (List.mem_append.mpr (Or.inr (by decide))))
  by_cases ht : typed = ""
  · refine ⟨B, ?_⟩
    rw [hmid, scan_append_notes_cases, hcleanT, if_pos ht, hMclean]
    simp [String.append_assoc]
  · refine ⟨B ++ ("\n" ++ typed), ?_⟩
    rw [hmid, scan_append_notes_of_clean _ typed hMclean hcleanT ht, if_neg hMne]
    simp [String.append_assoc]

theorem last_dot_append (x y : String) (hr : ∃ r, y.data.reverse = '.' :: r) :
    ∃ r, (x ++ y).data.reverse = '.' :: r := by
  obtain ⟨r, hry⟩ := hr
  refine ⟨r ++ x.data.reverse, ?_⟩
  rw [String.data_append, List.reverse_append, hry]
  rfl

theorem now_tag_head (h m s : Nat) : ∃ r, (scan_now_tag h m s).data = '[' :: r := by
  have h1 : ("[" : String).data = '[' :: [] := rfl
  have h2 := head_append_str "[" (pad2 h) '[' [] h1
  have h3 := head_append_str ("[" ++ pad2 h) ":" '[' _ h2
  have h4 := head_append_str ("[" ++ pad2 h ++ ":") (pad2 m) '[' _ h3
  have h5 := head_append_str ("[" ++ pad2 h ++ ":" ++ pad2 m) ":" '[' _ h4
  have h6 := head_append_str ("[" ++ pad2 h ++ ":" ++ pad2 m ++ ":") (pad2 s) '[' _ h5
  have h7 := head_append_str ("[" ++ pad2 h ++ ":" ++ pad2 m ++ ":" ++ pad2 s) "]" '[' _ h6
  exact ⟨_, h7⟩

theorem str_ext_data {s t : String} (h : s.data = t.data) : s = t := by
  cases s with
  | mk a =>
    cases t with
    | mk b => exact congrArg String.mk h

/-- Re-association of an audit action note around the space after the tag. -/
theorem split_mid (tg d mid pre rest sfx : String)
    (hsplit : mid.data = pre.data ++ rest.data) :
    tg ++ mid ++ d ++ sfx = tg ++ pre ++ (rest ++ (d ++ sfx)) := by
  apply str_ext_data
  simp only [String.data_append, hsplit, List.append_assoc]

theorem split_two (tg mid pre rest : String)
    (hsplit : mid.data = pre.data ++ rest.data) :
    tg ++ mid = tg ++ pre ++ rest := by
  apply str_ext_data
  simp only [String.data_append, hsplit, List.append_assoc]

theorem scan_focus_completed_note_def (existing typed tag : String) (missing : List String) :
    scan_focus_completed_note existing typed tag missing =
      scan_append_notes (scan_append_notes existing
        (tag ++ " " ++ ("Completed " ++ (orElseStr (scan_describe_tasks missing) "task"
          ++ " at center.")))) typed := by
  show scan_append_notes (scan_append_notes existing
      (tag ++ " Completed " ++ orElseStr (scan_describe_tasks missing) "task" ++ " at center.")) typed = _
  rw [split_mid tag (orElseStr (scan_describe_tasks missing) "task") " Completed " " "
    "Completed " " at center." (by decide)]

theorem scan_focus_override_note_def (existing typed tag : String) (missing : List String) :
    scan_focus_override_note existing typed tag missing =
      scan_append_notes (scan_append_notes existing
        (tag ++ " " ++ ("Attended with override (missing "
          ++ (orElseStr (scan_describe_tasks missing) "task" ++ ").")))) typed := by
  show scan_append_notes (scan_append_notes existing
      (tag ++ " Attended with override (missing "
        ++ orElseStr (scan_describe_tasks missing) "task" ++ ").")) typed = _
  rw [split_mid tag (orElseStr (scan_describe_tasks missing) "task")
    " Attended with override (missing " " " "Attended with override (missing " ")."
    (by decide)]

theorem scan_focus_deny_note_def (existing typed tag : String) (missing : List String) :
    scan_focus_deny_note existing typed tag missing =
      scan_append_notes (scan_append_notes existing
        (tag ++ " " ++ ("Denied Entry: No "
          ++ (orElseStr (scan_describe_tasks missing) "requirements" ++ ".")))) typed := by
  show scan_append_notes (scan_append_notes existing
      (tag ++ " Denied Entry: No "
        ++ orElseStr (scan_describe_tasks missing) "requirements" ++ ".")) typed = _
  rw [split_mid tag (orElseStr (scan_describe_tasks missing) "requirements")
    " Denied Entry: No " " " "Denied Entry: No " "." (by decide)]

theorem scan_focus_cancel_note_def (existing typed tag : String) :
    scan_focus_cancel_note existing typed tag =
      scan_append_notes (scan_append_notes existing (tag ++ " " ++ "Canceled.")) typed := by
  show scan_append_notes (scan_append_notes existing (tag ++ " Canceled.")) typed = _
  rw [split_two tag " Canceled." " " "Canceled." (by decide)]

/-! ## Claim C6: note appending and audit lines -/

/-- C6 (amended): for cleaned inputs, appending a non-empty note to empty
prior notes returns exactly the new note, and to non-empty prior notes joins
with exactly one newline; the complete, override, deny and cancel terminal
actions append their audit line, tagged `[HH:MM:SS]`, after the prior notes
in this way, never overwriting prior note history.  (Auto-attend, excluded
here, appends only the typed note — see the counterexample.) -/
theorem scan_append_notes_audit_spec :
    (∀ p a : String, clean_value p = p → clean_value a = a → a ≠ "" →
      (p = "" → scan_append_notes p a = a) ∧
      (p ≠ "" → scan_append_notes p a = p ++ "\n" ++ a))
    ∧ (∀ existing typed : String, ∀ h m s : Nat, ∀ missing : List String,
        clean_value existing = existing → existing ≠ "" → clean_value typed = typed →
        (∃ tail, scan_focus_completed_note existing typed (scan_now_tag h m s) missing =
          existing ++ "\n" ++ scan_now_tag h m s ++ " " ++ tail) ∧
        (∃ tail, scan_focus_override_note existing typed (scan_now_tag h m s) missing =
          existing ++ "\n" ++ scan_now_tag h m s ++ " " ++ tail) ∧
        (∃ tail, scan_focus_deny_note existing typed (scan_now_tag h m s) missing =
          existing ++ "\n" ++ scan_now_tag h m s ++ " " ++ tail) ∧
        (∃ tail, scan_focus_cancel_note existing typed (scan_now_tag h m s) =
          existing ++ "\n" ++ scan_now_tag h m s ++ " " ++ tail)) := by
  constructor
  · intro p a hp ha hane
    constructor
    · intro hpe
      rw [scan_append_notes_of_clean p a hp ha hane, if_pos hpe]
    · intro hpne
      rw [scan_append_notes_of_clean p a hp ha hane, if_neg hpne]
  · intro existing typed h m s missing hcleanE hEne hcleanT
    have htag := now_tag_head h m s
    have hdot : ∃ r, (" at center." : String).data.reverse = '.' :: r :=
      ⟨(" at center." : String).data.reverse.tail, by decide⟩
    have hdot2 : ∃ r, (")." : String).data.reverse = '.' :: r :=
      ⟨(")." : String).data.reverse.tail, by decide⟩
    have hdot3 : ∃ r, ("." : String).data.reverse = '.' :: r :=
      ⟨("." : String).data.reverse.tail, by decide⟩
    have hdot4 : ∃ r, ("Canceled." : String).data.reverse = '.' :: r :=
      ⟨("Canceled." : String).data.reverse.tail, by decide⟩
    refine ⟨?_, ?_, ?_, ?_⟩
    · rw [scan_focus_completed_note_def]
      exact append_notes_action_shape existing typed (scan_now_tag h m s) _
        hcleanE hEne hcleanT htag
        (last_dot_append "Completed " _ (last_dot_append _ " at center." hdot))
    · rw [scan_focus_override_note_def]
      exact append_notes_action_shape existing typed (scan_now_tag h m s) _
        hcleanE hEne hcleanT htag
        (last_dot_append "Attended with override (missing " _ (last_dot_append _ ")." hdot2))
    · rw [scan_focus_deny_note_def]
      exact append_notes_action_shape existing typed (scan_now_tag h m s) _
        hcleanE hEne hcleanT htag
        (last_dot_append "Denied Entry: No " _ (last_dot_append _ "." hdot3))
    · rw [scan_focus_cancel_note_def]
      exact append_notes_action_shape existing typed (scan_now_tag h m s) "Canceled."
        hcleanE hEne hcleanT htag hdot4

/-- Witness for C6: appending the note "New note" to the prior notes
"Old note" joins them with exactly one newline. -/
theorem scan_append_notes_audit_spec_witness :
    scan_append_notes "Old note" "New note" = "Old note" ++ "\n" ++ "New note" :=
  (scan_append_notes_audit_spec.1 "Old note" "New note" (by decide) (by decide)
    (by decide)).2 (by decide)

/-- Counterexample for C6 as stated: the auto-attend terminal action with no
typed note leaves the notes exactly equal to the prior notes — no
timestamp-tagged audit line is appended to them. -/
theorem scan_auto_attend_no_audit_counterexample :
    scan_handle_auto_attend_note "Prior note" "" = "Prior note" ∧
      '\n' ∉ ("Prior note" : String).data ∧ '[' ∉ ("Prior note" : String).data := by
  decide

/-! ## Lemmas about the add_record table transformation (claims C1, C3, C7) -/

theorem setCell_self (r : String → String) (c v : String) : setCell r c v c = v := by
  simp [setCell]

theorem setCell_of_ne (r : String → String) (c' v c : String) (h : c ≠ c') :
    setCell r c' v c = r c := by
  simp [setCell, h]

theorem ite_setCell_of_ne (P : Prop) [Decidable P] (r : String → String) (c' v c : String)
    (h : c ≠ c') : (if P then setCell r c' v else r) c = r c := by
  by_cases hp : P
  · rw [if_pos hp]
    exact setCell_of_ne r c' v c h
  · rw [if_neg hp]

theorem map_ite_id_of_false {α : Type} (p : α → Bool) (f : α → α) (l : List α)
    (h : ∀ x ∈ l, p x = false) : l.map (fun x => if p x then f x else x) = l := by
  induction l with
  | nil => rfl
  | cons a l ih =>
    have h1 : p a = false := h a (List.mem_cons_self a l)
    have h2 : ∀ x ∈ l, p x = false := fun x hx => h x (List.mem_cons_of_mem a hx)
    rw [List.map_cons, ih h2]
    simp [h1]

theorem find_append_cons {α : Type} (p : α → Bool) (pre : List α) (r0 : α) (post : List α)
    (hpre : ∀ x ∈ pre, p x = false) (h0 : p r0 = true) :
    (pre ++ r0 :: post).find? p = some r0 := by
  induction pre with
  | nil =>
    rw [List.nil_append]
    exact List.find?_cons_of_pos post h0
  | cons a pre ih =>
    rw [List.cons_append, List.find?_cons_of_neg]
    · exact ih (fun x hx => hpre x (List.mem_cons_of_mem a hx))
    · simp [hpre a (List.mem_cons_self a pre)]

theorem any_append_cons {α : Type} (p : α → Bool) (pre : List α) (r0 : α) (post : List α)
    (h0 : p r0 = true) : (pre ++ r0 :: post).any p = true := by
  simp [List.any_append, List.any_cons, h0]

/-- The update branch of `add_record_df`, on a table decomposed around its
unique matching row. -/
theorem add_record_df_found (m : String → Option String) (rec : RecR) (cols : List String)
    (pre : List (String → String)) (r0 : String → String) (post : List (String → String))
    (h0 : r0 (mget m "card_id") = rec.card_id)
    (hpre : ∀ r ∈ pre, r (mget m "card_id") ≠ rec.card_id)
    (hpost : ∀ r ∈ post, r (mget m "card_id") ≠ rec.card_id) :
    add_record_df m rec ⟨cols, pre ++ r0 :: post⟩ =
      ⟨cols, pre ++ (setCell (setCell (setCell r0 (mget m "timestamp")
        (if rec.timestamp ≠ "" then rec.timestamp
         else if mget m "timestamp" ∈ cols then r0 (mget m "timestamp") else ""))
        (mget m "attendance") rec.attendance) (mget m "notes") rec.notes) :: post⟩ := by
  have hpred0 : (r0 (mget m "card_id") == rec.card_id) = true := by simp [h0]
  have hpredpre : ∀ r ∈ pre, (r (mget m "card_id") == rec.card_id) = false := by
    intro r hr
    simp only [beq_eq_false_iff_ne, ne_eq]
    exact hpre r hr
  have hpredpost : ∀ r ∈ post, (r (mget m "card_id") == rec.card_id) = false := by
    intro r hr
    simp only [beq_eq_false_iff_ne, ne_eq]
    exact hpost r hr
  have hany : ((pre ++ r0 :: post).any fun r => r (mget m "card_id") == rec.card_id) = true :=
    any_append_cons _ pre r0 post hpred0
  have hfind : ((pre ++ r0 :: post).find? fun r => r (mget m "card_id") == rec.card_id)
      = some r0 := find_append_cons _ pre r0 post hpredpre hpred0
  simp only [add_record_df]
  rw [if_pos hany, hfind]
  simp only [Option.map_some', Option.getD_some]
  congr 1
  rw [List.map_append, List.map_cons]
  rw [map_ite_id_of_false _ _ pre hpredpre, map_ite_id_of_false _ _ post hpredpost]
  rw [if_pos hpred0]

/-- The append branch of `add_record_df` when the mapped attendance, notes and
timestamp columns are present. -/
theorem add_record_df_notfound (m : String → Option String) (rec : RecR) (cols : List String)
    (rows : List (String → String))
    (h : ∀ r ∈ rows, r (mget m "card_id") ≠ rec.card_id)
    (hatt : mget m "attendance" ∈ cols) (hnotes : mget m "notes" ∈ cols)
    (hts : mget m "timestamp" ∈ cols) :
    ∃ newRow, add_record_df m rec ⟨cols, rows⟩ = ⟨cols, rows ++ [newRow]⟩ ∧
      newRow (mget m "timestamp") = rec.timestamp ∧
      (∀ c, c ∈ cols →
        c ≠ mget m "card_id" → c ≠ mget m "student_id" → c ≠ mget m "name" →
        c ≠ mget m "phone" → c ≠ mget m "attendance" → c ≠ mget m "notes" →
        c ≠ mget m "timestamp" → newRow c = "") := by
  have hpred : ∀ r ∈ rows, (r (mget m "card_id") == rec.card_id) = false := by
    intro r hr
    simp only [beq_eq_false_iff_ne, ne_eq]
    exact h r hr
  have hany : (rows.any fun r => r (mget m "card_id") == rec.card_id) = false := by
    rw [List.any_eq_false]
    intro r hr
    simp [hpred r hr]
  simp only [add_record_df]
  rw [if_neg (by rw [hany]; exact Bool.false_ne_true)]
  rw [if_pos hatt]
  rw [List.append_nil, if_pos hnotes, List.append_nil, if_pos hts, List.append_nil]
  refine ⟨_, rfl, ?_, ?_⟩
  · exact setCell_self _ _ _
  · intro c hc h1 h2 h3 h4 h5 h6 h7
    rw [setCell_of_ne _ _ _ _ h7, setCell_of_ne _ _ _ _ h6, setCell_of_ne _ _ _ _ h5]
    rw [ite_setCell_of_ne _ _ _ _ _ h4, ite_setCell_of_ne _ _ _ _ _ h3,
      ite_setCell_of_ne _ _ _ _ _ h2, ite_setCell_of_ne _ _ _ _ _ h1]

/-! ## Claim C1: upsert semantics of add_record -/

/-- C1: for a table containing the mapped attendance/notes/timestamp columns,
if no row's card-id cell equals the record's card id (as strings) the written
table is the old one with exactly one new row appended whose non-mapped
columns default to the empty string; if exactly one row matches (the
"never duplicate an existing id" invariant of the spec), that row's
attendance and notes cells are overwritten with the record's values, its
timestamp cell follows the retention rule, every other column of that row,
every other row, the column list and the row count are unchanged. -/
theorem add_record_upsert_correct (m : String → Option String) (rec : RecR) :
    (∀ cols : List String, ∀ rows : List (String → String),
      mget m "attendance" ∈ cols → mget m "notes" ∈ cols → mget m "timestamp" ∈ cols →
      (∀ r ∈ rows, r (mget m "card_id") ≠ rec.card_id) →
      (add_record_df m rec ⟨cols, rows⟩).cols = cols ∧
      (add_record_df m rec ⟨cols, rows⟩).rows.length = rows.length + 1 ∧
      ∃ newRow, (add_record_df m rec ⟨cols, rows⟩).rows = rows ++ [newRow] ∧
        ∀ c, c ∈ cols →
          c ≠ mget m "card_id" → c ≠ mget m "student_id" → c ≠ mget m "name" →
          c ≠ mget m "phone" → c ≠ mget m "attendance" → c ≠ mget m "notes" →
          c ≠ mget m "timestamp" → newRow c = "")
    ∧ (∀ cols : List String, ∀ pre : List (String → String), ∀ r0 : String → String,
        ∀ post : List (String → String),
        r0 (mget m "card_id") = rec.card_id →
        (∀ r ∈ pre, r (mget m "card_id") ≠ rec.card_id) →
        (∀ r ∈ post, r (mget m "card_id") ≠ rec.card_id) →
        mget m "attendance" ∈ cols → mget m "notes" ∈ cols → mget m "timestamp" ∈ cols →
        mget m "attendance" ≠ mget m "notes" →
        mget m "timestamp" ≠ mget m "notes" →
        mget m "timestamp" ≠ mget m "attendance" →
        (add_record_df m rec ⟨cols, pre ++ r0 :: post⟩).cols = cols ∧
        (add_record_df m rec ⟨cols, pre ++ r0 :: post⟩).rows.length =
          (pre ++ r0 :: post).length ∧
        ∃ upd, (add_record_df m rec ⟨cols, pre ++ r0 :: post⟩).rows = pre ++ upd :: post ∧
          upd (mget m "attendance") = rec.attendance ∧
          upd (mget m "notes") = rec.notes ∧
          upd (mget m "timestamp") =
            (if rec.timestamp = "" then r0 (mget m "timestamp") else rec.timestamp) ∧
          ∀ c, c ≠ mget m "attendance" → c ≠ mget m "notes" → c ≠ mget m "timestamp" →
            upd c = r0 c) := by
  constructor
  · intro cols rows hatt hnotes hts hnomatch
    obtain ⟨newRow, heq, hts0, hempty⟩ :=
      add_record_df_notfound m rec cols rows hnomatch hatt hnotes hts
    refine ⟨?_, ?_, newRow, ?_, hempty⟩
    · rw [heq]
    · rw [heq]
      simp
    · rw [heq]
  · intro cols pre r0 post h0 hpre hpost hatt hnotes hts hd1 hd2 hd3
    have heq := add_record_df_found m rec cols pre r0 post h0 hpre hpost
    refine ⟨?_, ?_,
      setCell (setCell (setCell r0 (mget m "timestamp")
        (if rec.timestamp ≠ "" then rec.timestamp
         else if mget m "timestamp" ∈ cols then r0 (mget m "timestamp") else ""))
        (mget m "attendance") rec.attendance) (mget m "notes") rec.notes,
      ?_, ?_, ?_, ?_, ?_⟩
    · rw [heq]
    · rw [heq]
      simp
    · rw [heq]
    · rw [setCell_of_ne _ _ _ _ hd1]
      exact setCell_self _ _ _
    · exact setCell_self _ _ _
    · rw [setCell_of_ne _ _ _ _ hd2, setCell_of_ne _ _ _ _ hd3, setCell_self]
      by_cases hrt : rec.timestamp = ""
      · rw [if_pos hrt, if_neg (fun hn => hn hrt), if_pos hts]
      · rw [if_neg hrt, if_pos hrt]
    · intro c hc1 hc2 hc3
      rw [setCell_of_ne _ _ _ _ hc2, setCell_of_ne _ _ _ _ hc1, setCell_of_ne _ _ _ _ hc3]

def wMap : String → Option String := fun _ => none

def wCols : List String := ["card_id", "student_id", "name", "phone", "attendance", "notes", "timestamp"]

def wRow1 : String → String := fun c => if c = "card_id" then "00000001" else ""

def wRecNew : RecR :=
  { card_id := "00000002", student_id := "7", name := "N", phone := "P",
    attendance := "attend", notes := "ok", timestamp := "[10:00:00]",
    exam := "", homework := "" }

def wRecUpd : RecR :=
  { card_id := "00000001", student_id := "", name := "", phone := "",
    attendance := "attend", notes := "done", timestamp := "",
    exam := "", homework := "" }

/-- Witness for C1: on a one-row table, upserting a fresh card id keeps the
columns and appends one row, and upserting the existing card id keeps the row
count at one. -/
theorem add_record_upsert_correct_witness :
    (add_record_df wMap wRecNew ⟨wCols, [wRow1]⟩).cols = wCols ∧
    (add_record_df wMap wRecNew ⟨wCols, [wRow1]⟩).rows.length = 2 ∧
    (add_record_df wMap wRecUpd ⟨wCols, [wRow1]⟩).rows.length = 1 := by
  have hA := (add_record_upsert_correct wMap wRecNew).1 wCols [wRow1]
    (by decide) (by decide) (by decide) (by decide)
  have hB := (add_record_upsert_correct wMap wRecUpd).2 wCols [] wRow1 []
    (by decide) (by decide) (by decide) (by decide) (by decide) (by decide)
    (by decide) (by decide) (by decide)
  exact ⟨hA.1, hA.2.1, hB.2.1.trans (by rfl)⟩

/-! ## Claim C3: timestamp retention on upsert -/

/-- C3: upserting onto the unique matching row keeps the stored timestamp
when the incoming record's timestamp is empty, and overwrites it when the
incoming timestamp is non-empty. -/
theorem add_record_timestamp_retention (m : String → Option String) (rec : RecR)
    (cols : List String) (pre : List (String → String)) (r0 : String → String)
    (post : List (String → String))
    (h0 : r0 (mget m "card_id") = rec.card_id)
    (hpre : ∀ r ∈ pre, r (mget m "card_id") ≠ rec.card_id)
    (hpost : ∀ r ∈ post, r (mget m "card_id") ≠ rec.card_id)
    (hts : mget m "timestamp" ∈ cols)
    (hd2 : mget m "timestamp" ≠ mget m "notes")
    (hd3 : mget m "timestamp" ≠ mget m "attendance") :
    ∃ upd, (add_record_df m rec ⟨cols, pre ++ r0 :: post⟩).rows = pre ++ upd :: post ∧
      (rec.timestamp = "" → upd (mget m "timestamp") = r0 (mget m "timestamp")) ∧
      (rec.timestamp ≠ "" → upd (mget m "timestamp") = rec.timestamp) := by
  have heq := add_record_df_found m rec cols pre r0 post h0 hpre hpost
  refine ⟨setCell (setCell (setCell r0 (mget m "timestamp")
      (if rec.timestamp ≠ "" then rec.timestamp
       else if mget m "timestamp" ∈ cols then r0 (mget m "timestamp") else ""))
      (mget m "attendance") rec.attendance) (mget m "notes") rec.notes, ?_, ?_, ?_⟩
  · rw [heq]
  · intro hrt
    rw [setCell_of_ne _ _ _ _ hd2, setCell_of_ne _ _ _ _ hd3, setCell_self]
    rw [if_neg (fun hn => hn hrt), if_pos hts]
  · intro hrt
    rw [setCell_of_ne _ _ _ _ hd2, setCell_of_ne _ _ _ _ hd3, setCell_self]
    rw [if_pos hrt]

def wRow1t : String → String :=
  fun c => if c = "card_id" then "00000001" else if c = "timestamp" then "T1" else ""

/-- Witness for C3: committing with an empty payload timestamp onto a row
whose stored timestamp is "T1" leaves the stored timestamp "T1". -/
theorem add_record_timestamp_retention_witness :
    ((add_record_df wMap wRecUpd ⟨wCols, [wRow1t]⟩).rows.map
      (fun r => r "timestamp")) = ["T1"] := by
  obtain ⟨upd, hrows, hkeep, _⟩ := add_record_timestamp_retention wMap wRecUpd wCols [] wRow1t []
    (by decide) (by decide) (by decide) (by decide) (by decide) (by decide)
  simp only [List.nil_append] at hrows
  rw [hrows]
  simp only [List.map_cons, List.map_nil]
  rw [show ("timestamp" : String) = mget wMap "timestamp" from rfl, hkeep (by decide)]
  decide

/-! ## Claim C7: read or write failure leaves the store unchanged -/

/-- C7: `add_record` either fails — when the store cannot be read or written —
reporting the error to the caller and leaving the on-disk table unchanged, or
succeeds persisting the fully transformed table; no partial write exists
because the table is written only once, after all in-memory edits. -/
theorem add_record_failure_atomicity (m : String → Option String) (rec : RecR) (s : Store) :
    ((add_record m rec s).2 ≠ none → (add_record m rec s).1 = s) ∧
    ((add_record m rec s).2 = none →
      ∃ df, s.table = some df ∧ s.writable = true ∧
        (add_record m rec s).1 = { table := some (add_record_df m rec df), writable := true }) ∧
    (s.table = none → (add_record m rec s).2 ≠ none) ∧
    (∀ df, s.table = some df → s.writable = false → (add_record m rec s).2 ≠ none) := by
  obtain ⟨tb, wr⟩ := s
  cases tb with
  | none =>
    refine ⟨fun _ => rfl, ?_, ?_, ?_⟩
    · intro h
      exact absurd h (by simp [add_record, read_data])
    · intro _
      simp [add_record, read_data]
    · intro df hdf
      exact absurd hdf (by simp)
  | some df =>
    cases wr with
    | false =>
      refine ⟨fun _ => rfl, ?_, ?_, ?_⟩
      · intro h
        exact absurd h (by simp [add_record, read_data, write_data])
      · intro h
        exact absurd h (by simp)
      · intro df2 hdf2 _
        simp [add_record, read_data, write_data]
    | true =>
      refine ⟨?_, ?_, ?_, ?_⟩
      · intro h
        exact absurd
          (by simp [add_record, read_data, write_data] :
            (add_record m rec ⟨some df, true⟩).2 = none) h
      · intro _
        exact ⟨df, rfl, rfl, by simp [add_record, read_data, write_data]⟩
      · intro h
        exact absurd h (by simp)
      · intro df2 hdf2 hw
        exact absurd hw (by simp)

/-- Witness for C7: on an unreadable store the operation reports an error and
the store is unchanged. -/
theorem add_record_failure_atomicity_witness :
    (add_record wMap wRecNew ⟨none, true⟩).2 ≠ none ∧
      (add_record wMap wRecNew ⟨none, true⟩).1 = ⟨none, true⟩ := by
  have hne : (add_record wMap wRecNew ⟨none, true⟩).2 ≠ none := by
    simp [add_record, read_data]
  exact ⟨hne, (add_record_failure_atomicity wMap wRecNew ⟨none, true⟩).1 hne⟩

/-! ## Claim C8: column-mapping validity -/

def wBadMap : String → String := fun k => if k = "card_id" then "A" else ""

/-- Counterexample for C8 as stated: the mapping assigning a header only to
card_id is a bijection over its non-empty entries, yet the settings window
rejects it — empty entries are not accepted. -/
theorem mapping_valid_counterexample :
    spec_mapping_bijective_over_nonempty wBadMap ∧ is_mapping_valid wBadMap = false := by
  constructor
  · intro k1 h1 k2 h2 hne1 hne2 heq
    fin_cases h1 <;> fin_cases h2 <;> first
      | rfl
      | (exact absurd rfl hne1)
      | (exact absurd rfl hne2)
  · decide

/-- C8 (amended): a column mapping of the 9 logical field names is accepted
as valid if and only if every field is assigned a non-empty header and no two
logical fields share a header. -/
theorem is_mapping_valid_iff (m : String → String) :
    is_mapping_valid m = true ↔
      (∀ k ∈ mapping_fields, m k ≠ "") ∧
      (∀ k1 ∈ mapping_fields, ∀ k2 ∈ mapping_fields, m k1 = m k2 → k1 = k2) := by
  have hnodup : mapping_fields.Nodup := by decide
  unfold is_mapping_valid collect_mapping
  by_cases hcond : (mapping_fields.map m).isEmpty = true ∨ "" ∈ mapping_fields.map m
  · rw [if_pos hcond]
    simp only [Bool.false_eq_true, false_iff]
    intro ⟨hne, _⟩
    cases hcond with
    | inl h => exact absurd h (by simp [mapping_fields])
    | inr h =>
      obtain ⟨k, hk, hmk⟩ := List.mem_map.mp h
      exact hne k hk hmk
  · rw [if_neg hcond]
    push_neg at hcond
    constructor
    · intro h
      refine ⟨?_, (List.nodup_map_iff_inj_on hnodup).mp (of_decide_eq_true h)⟩
      intro k hk hmk
      exact hcond.2 (List.mem_map.mpr ⟨k, hk, hmk⟩)
    · intro ⟨hne, hinj⟩
      exact decide_eq_true ((List.nodup_map_iff_inj_on hnodup).mpr hinj)

/-! ## Claim C5: the missing-requirement set -/

theorem exam_mem_build_cols (r : Restrictions) : "exam" ∈ build_tree_cols r ↔ r.exam = true := by
  obtain ⟨re, rh⟩ := r
  cases re <;> cases rh <;> decide

theorem homework_mem_build_cols (r : Restrictions) :
    "homework" ∈ build_tree_cols r ↔ r.homework = true := by
  obtain ⟨re, rh⟩ := r
  cases re <;> cases rh <;> decide

theorem scan_collect_missing_tasks_mem (r : Restrictions) (t : TreeState) (iid a : String) :
    a ∈ scan_collect_missing_tasks r t iid ↔
      (a = "exam" ∧ (r.exam = true ∧ "exam" ∈ t.cols ∧
        (scan_tree_get t iid "exam" = "" ∨ scan_tree_get t iid "exam" = "0"))) ∨
      (a = "homework" ∧ (r.homework = true ∧ "homework" ∈ t.cols ∧
        (scan_tree_get t iid "homework" = "" ∨ scan_tree_get t iid "homework" = "0"))) := by
  unfold scan_collect_missing_tasks
  by_cases h1 : (r.exam = true ∧ "exam" ∈ t.cols ∧
      (scan_tree_get t iid "exam" = "" ∨ scan_tree_get t iid "exam" = "0")) <;>
    by_cases h2 : (r.homework = true ∧ "homework" ∈ t.cols ∧
      (scan_tree_get t iid "homework" = "" ∨ scan_tree_get t iid "homework" = "0")) <;>
    simp [h1, h2]

/-- C5: with the treeview columns built from the restrictions, the computed
missing-requirement set contains "exam" (resp. "homework") iff that
restriction is enabled and the record's corresponding grade field is empty or
literally "0"; nothing else is ever in the set. -/
theorem scan_collect_missing_tasks_spec (r : Restrictions) (t : TreeState) (iid : String)
    (hcols : t.cols = build_tree_cols r) :
    ("exam" ∈ scan_collect_missing_tasks r t iid ↔
      r.exam = true ∧ (scan_tree_get t iid "exam" = "" ∨ scan_tree_get t iid "exam" = "0")) ∧
    ("homework" ∈ scan_collect_missing_tasks r t iid ↔
      r.homework = true ∧
        (scan_tree_get t iid "homework" = "" ∨ scan_tree_get t iid "homework" = "0")) ∧
    (∀ x ∈ scan_collect_missing_tasks r t iid, x = "exam" ∨ x = "homework") := by
  refine ⟨?_, ?_, ?_⟩
  · rw [scan_collect_missing_tasks_mem]
    constructor
    · rintro (⟨-, hre, -, hg⟩ | ⟨hbad, -⟩)
      · exact ⟨hre, hg⟩
      · exact absurd hbad (by decide)
    · rintro ⟨hre, hg⟩
      exact Or.inl ⟨rfl, hre, by rw [hcols]; exact (exam_mem_build_cols r).mpr hre, hg⟩
  · rw [scan_collect_missing_tasks_mem]
    constructor
    · rintro (⟨hbad, -⟩ | ⟨-, hrh, -, hg⟩)
      · exact absurd hbad (by decide)
      · exact ⟨hrh, hg⟩
    · rintro ⟨hrh, hg⟩
      exact Or.inr ⟨rfl, hrh, by rw [hcols]; exact (homework_mem_build_cols r).mpr hrh, hg⟩
  · intro x hx
    rw [scan_collect_missing_tasks_mem] at hx
    rcases hx with ⟨h, -⟩ | ⟨h, -⟩
    · exact Or.inl h
    · exact Or.inr h

def wTree5 : TreeState := ⟨build_tree_cols ⟨true, false⟩, [⟨"A", [("exam", "0")]⟩]⟩

/-- Witness for C5: with the exam restriction enabled and a record whose exam
grade is "0", the missing set contains "exam" and nothing unexpected. -/
theorem scan_collect_missing_tasks_spec_witness :
    ("exam" ∈ scan_collect_missing_tasks ⟨true, false⟩ wTree5 "A" ↔
      (true = true) ∧ (scan_tree_get wTree5 "A" "exam" = "" ∨
        scan_tree_get wTree5 "A" "exam" = "0")) ∧
    ("homework" ∈ scan_collect_missing_tasks ⟨true, false⟩ wTree5 "A" ↔
      (false = true) ∧ (scan_tree_get wTree5 "A" "homework" = "" ∨
        scan_tree_get wTree5 "A" "homework" = "0")) ∧
    (∀ x ∈ scan_collect_missing_tasks ⟨true, false⟩ wTree5 "A",
      x = "exam" ∨ x = "homework") :=
  scan_collect_missing_tasks_spec ⟨true, false⟩ wTree5 "A" rfl

/-! ## Claim C4: duplicate scans perform no mutation -/

theorem scan_lookup_matches_normalize (t : TreeState) (e : String) :
    scan_lookup_matches t (scan_normalize_card e) = scan_lookup_matches t e := by
  unfold scan_lookup_matches
  rw [scan_normalize_idem_lemma]

theorem lookup_nonempty_normalized (t : TreeState) (e : String)
    (h : scan_lookup_matches t e ≠ []) : scan_normalize_card e ≠ "" := by
  intro he
  apply h
  unfold scan_lookup_matches
  rw [if_pos he]

/-- C4: a scan whose normalized token matches two or more loaded records (by
raw stored id or normalized form) yields the duplicate status and performs no
mutation: the tree is unchanged and nothing is upserted to the store. -/
theorem scan_duplicate_no_mutation (r : Restrictions) (t : TreeState) (entry tag typed : String)
    (h : 2 ≤ (scan_lookup_matches t entry).length) :
    scan_on_scan_step false r t entry tag typed =
      (ScanResult.duplicate (scan_lookup_matches t entry), t, []) := by
  have hne : scan_normalize_card entry ≠ "" := by
    apply lookup_nonempty_normalized
    intro hempty
    rw [hempty] at h
    simp at h
  obtain ⟨a, b, l, hl⟩ : ∃ a b l, scan_lookup_matches t entry = a :: b :: l := by
    cases hm : scan_lookup_matches t entry with
    | nil =>
      rw [hm] at h
      simp at h
    | cons a rest =>
      cases rest with
      | nil =>
        rw [hm] at h
        simp at h
      | cons b l => exact ⟨a, b, l, rfl⟩
  unfold scan_on_scan_step
  rw [if_neg (by simp : ¬(false = true)), if_neg hne, scan_lookup_matches_normalize, hl]

def wTree4 : TreeState :=
  ⟨["card_id"], [⟨"00000001", [("card_id", "00000001")]⟩, ⟨"1", [("card_id", "1")]⟩]⟩

/-- Witness for C4: scanning "1" in a tree holding both a padded and an
unpadded copy of the same card resolves to two matches, yields the duplicate
status, and leaves the tree and store untouched. -/
theorem scan_duplicate_no_mutation_witness :
    2 ≤ (scan_lookup_matches wTree4 "1").length ∧
    scan_on_scan_step false ⟨true, true⟩ wTree4 "1" "[12:00:00]" "" =
      (ScanResult.duplicate (scan_lookup_matches wTree4 "1"), wTree4, []) :=
  ⟨by decide, scan_duplicate_no_mutation ⟨true, true⟩ wTree4 "1" "[12:00:00]" "" (by decide)⟩

/-! ## Claim C9: manual addition with a fallback identifier -/

theorem unknown_not_digit (x : String) : pyIsdigit ("Unknown " ++ x) = false := by
  have hdata : ("Unknown " ++ x).data = 'U' :: ("nknown ".data ++ x.data) := by
    rw [String.data_append]
    rfl
  unfold pyIsdigit
  rw [hdata]
  have hU : ('U').isDigit = false := by decide
  simp [List.all_cons, hU]

/-- C9: a manual addition with no card id available builds its record with
the fallback identifier "Unknown N", where N is one greater than the largest
suffix among records whose card id starts with "Unknown " (zero when there
are none), attendance pre-set to "attend", notes set to the caller-supplied
default string, and the timestamp tag in the timestamp field.  `counter =
none` is the first call of the session; `hsuf` says every "Unknown " suffix
parses (otherwise the Python code raises). -/
theorem handle_add_student_unknown_spec (student_id name phone default_notes tag : String)
    (records : List String) (l : List Int)
    (hsuf : unknown_suffix_ints records = some l) :
    handle_add_student_submission none student_id name phone default_notes tag records none =
      some { card_id := "Unknown " ++ toString (pyMaxD l 0 + 1), attendance := "attend",
             timestamp := tag, student_id := student_id, name := name, phone := phone,
             notes := default_notes, exam := "", homework := "" } := by
  unfold handle_add_student_submission next_unknown_card_id
  rw [hsuf]
  simp only [Option.map_some']
  rw [if_neg]
  intro h
  rw [unknown_not_digit] at h
  exact absurd h (by simp)

def wRecords : List String := ["Unknown 3", "00000007", "Unknown 12"]

/-- Witness for C9: with existing fallback records "Unknown 3" and
"Unknown 12", the next manual addition is "Unknown 13", attending, with the
default notes. -/
theorem handle_add_student_unknown_spec_witness :
    unknown_suffix_ints wRecords = some [3, 12] ∧
    handle_add_student_submission none "501" "Student" "0100" "manual addition" "[09:00:00]"
        wRecords none =
      some { card_id := "Unknown " ++ toString (pyMaxD [3, 12] 0 + 1), attendance := "attend",
             timestamp := "[09:00:00]", student_id := "501", name := "Student", phone := "0100",
             notes := "manual addition", exam := "", homework := "" } :=
  ⟨by decide, handle_add_student_unknown_spec "501" "Student" "0100" "manual addition"
    "[09:00:00]" wRecords [3, 12] (by decide)⟩
